import Mathlib

/-!
# Verification of the SYMMETRIX finite-field / scheduler kernel core

Shallow embedding of the C sources `src/kernel/symmetrix-galois.c` and
`src/kernel/symmetrix-core.c`.  Machine integers are modelled as `Nat`
(unsigned) or `Int` (signed) with explicit reductions `% 2^64` where the C
code can wrap; the `u128` intermediates of the source never wrap (a product
of two `u64` values is below `2^128`), so they appear as plain `Nat`
arithmetic.  While-loops are embedded as fuel-driven structural recursions
whose fuel provably dominates the iteration count of the C loop.
-/

set_option maxRecDepth 40000

namespace Symmetrix

/-- The wrap modulus of the C `u64` type, `2^64`. -/
def U64MOD : Nat := 18446744073709551616

/-- Signed reinterpretation of a `u64` bit pattern as the C `s64` value
(gcc two's-complement conversion), as performed by the initialisation of
`old_r`/`r` in `symmetrix_galois_inv`. -/
def toS64 (u : Nat) : Int :=
  if u < 9223372036854775808 then (u : Int) else (u : Int) - 18446744073709551616

/-- Conversion of an `s64` value to the `u64` bit pattern (reduction
mod `2^64`), as performed by the assignment `result.value = old_s`. -/
def toU64 (i : Int) : Nat :=
  (i % (18446744073709551616 : Int)).toNat

/-- The struct `galois_element`: a value together with its modulus, both
`u64` fields. -/
structure galois_element where
  value : Nat
  modulus : Nat
deriving DecidableEq, Repr

/-- Embedding of `symmetrix_galois_add` (symmetrix-galois.c:72-87).  On
modulus mismatch it logs and returns a zero element tagged with `a`'s
modulus; otherwise the `u64` sum — which wraps at `2^64` — is reduced by
`a.modulus`. -/
def symmetrix_galois_add (a b : galois_element) : galois_element :=
  if a.modulus ≠ b.modulus then
    { value := 0, modulus := a.modulus }
  else
    { value := ((a.value + b.value) % U64MOD) % a.modulus, modulus := a.modulus }

/-- Embedding of `symmetrix_galois_mul` (symmetrix-galois.c:94-113).  The
product is formed in `u128` — it never wraps for `u64` operands — reduced by
`a.modulus`, and the result is stored back into a `u64` (the final
`% U64MOD`, a no-op whenever the modulus fits in 64 bits). -/
def symmetrix_galois_mul (a b : galois_element) : galois_element :=
  if a.modulus ≠ b.modulus then
    { value := 0, modulus := a.modulus }
  else
    { value := ((a.value * b.value) % a.modulus) % U64MOD, modulus := a.modulus }

/-- Fuel-driven embedding of the while-loop of `symmetrix_galois_pow`
(symmetrix-galois.c:121-135).  State: accumulated `result`, running base `b`,
remaining exponent `e`, modulus `m`; one step processes the lowest exponent
bit exactly as the C body does, with the `u128` products reduced by `m`. -/
def pow_loop : Nat → Nat → Nat → Nat → Nat → Nat
  | 0, result, _, _, _ => result
  | fuel + 1, result, b, e, m =>
    if e = 0 then result
    else
      pow_loop fuel (if e % 2 = 1 then (result * b) % m else result)
        ((b * b) % m) (e / 2) m

/-- Embedding of `symmetrix_galois_pow` (symmetrix-galois.c:121-135).  The C
exponent is a `u64`, so 64 halvings always exhaust it: with fuel 64 the
fuel-driven loop coincides with the unbounded C while-loop for every
`exp < 2^64`. -/
def symmetrix_galois_pow (base exp m : Nat) : Nat :=
  pow_loop 64 1 (base % m) exp m

/-- The loop state of the extended Euclidean algorithm in
`symmetrix_galois_inv`: the six `s64` locals `old_r, r, old_s, s, old_t, t`. -/
structure euclid_state where
  old_r : Int
  r : Int
  old_s : Int
  s : Int
  old_t : Int
  t : Int
deriving DecidableEq, Repr

/-- Fuel-driven embedding of the while-loop of `symmetrix_galois_inv`
(symmetrix-galois.c:163-177).  `Int.tdiv` is C signed division (truncation
toward zero).  Each iteration replaces `r` by the truncated remainder
`old_r - quotient * r`, whose absolute value is strictly below `|r|`, so the
loop runs at most `|r|` times and any fuel above that bound makes this
coincide with the unbounded C loop. -/
def inv_loop : Nat → euclid_state → euclid_state
  | 0, st => st
  | fuel + 1, st =>
    if st.r = 0 then st
    else
      let quotient := Int.tdiv st.old_r st.r
      inv_loop fuel
        { old_r := st.r, r := st.old_r - quotient * st.r
          old_s := st.s, s := st.old_s - quotient * st.s
          old_t := st.t, t := st.old_t - quotient * st.t }

/-- The post-loop processing of `symmetrix_galois_inv`
(symmetrix-galois.c:179-190): a final remainder above 1 means the element is
not invertible (zero element returned); otherwise a negative Bezout
coefficient is shifted by the modulus once and the result is stored back into
the `u64` value field (`toU64`; the intermediate `s64` wrap of
`old_s += a.modulus` agrees with this modulo `2^64`). -/
def galois_inv_post (a : galois_element) (st : euclid_state) : galois_element :=
  if st.old_r > 1 then { value := 0, modulus := a.modulus }
  else
    { value := toU64 (if st.old_s < 0 then st.old_s + (a.modulus : Int) else st.old_s),
      modulus := a.modulus }

/-- Embedding of `symmetrix_galois_inv` (symmetrix-galois.c:141-191).  The
`u64` fields are reinterpreted as `s64` on entry (`toS64`), the extended
Euclidean loop runs on `(modulus, value)`, and `galois_inv_post` builds the
result. -/
def symmetrix_galois_inv (a : galois_element) : galois_element :=
  if a.value = 0 then { value := 0, modulus := a.modulus }
  else
    galois_inv_post a (inv_loop ((toS64 a.value).natAbs + 1)
      { old_r := toS64 a.modulus, r := toS64 a.value,
        old_s := 0, s := 1, old_t := 1, t := 0 })

/-- The array `symmetrix_crt_primes` of `symmetrix.h` (staged in
src/kernel/symmetrix-msi-fpga.c:740-749): the eight largest primes below
`2^31`, starting with the Mersenne prime `2^31 - 1`. -/
def symmetrix_crt_primes : List Nat :=
  [2147483647, 2147483629, 2147483587, 2147483579,
   2147483563, 2147483549, 2147483543, 2147483497]

/-- The macro `SYMMETRIX_NUM_CRT_PRIMES` of `symmetrix.h` (staged in
src/kernel/symmetrix-msi-fpga.c:751): the element count of the prime table,
`sizeof(symmetrix_crt_primes) / sizeof(symmetrix_crt_primes[0]) = 8`. -/
def SYMMETRIX_NUM_CRT_PRIMES : Nat := 8

/-- The exact product of the first `k` table primes (the spec-side modulus
for the CRT round-trip property; note the code's `u64` accumulation of this
product wraps, see `crt_product`). -/
def crt_prime_product (k : Nat) : Nat :=
  (symmetrix_crt_primes.take k).prod

/-- Embedding of `symmetrix_crt_decompose` (symmetrix-galois.c:199-212).
A count above the table size fails with `-EINVAL` (-22) before any residue is
written; otherwise residue slot `i` receives `value mod p_i` for the first
`num_primes` table primes (the C count is a signed `int`: a non-positive
count succeeds and writes nothing). -/
def symmetrix_crt_decompose (value : Nat) (residues : List Nat) (num_primes : Int) :
    Int × List Nat :=
  if num_primes > (SYMMETRIX_NUM_CRT_PRIMES : Int) then (-22, residues)
  else
    (0, (List.range num_primes.toNat).foldl
      (fun rs i => rs.set i (value % symmetrix_crt_primes.getD i 0)) residues)

/-- The `u64` accumulation `product *= crt_primes[i]` of
`symmetrix_crt_reconstruct` (symmetrix-galois.c:231-233): it wraps at `2^64`
once the true product exceeds 64 bits. -/
def crt_product (num_primes : Nat) : Nat :=
  (List.range num_primes).foldl
    (fun acc i => (acc * symmetrix_crt_primes.getD i 0) % U64MOD) 1

/-- Embedding of `symmetrix_crt_reconstruct` (symmetrix-galois.c:220-251).
Per prime: `m_i = product / p_i` (u64 division by the possibly wrapped
product), a Fermat inverse of `m_i mod p_i` via `symmetrix_galois_pow`, and
the `u128` term `((residues[i] * m_i) % product * m_i_inv) % product` (never
wrapping in 128 bits for `u64` inputs); the running `u64` sum
`sum = (sum + term) % product` can wrap at `2^64` before its reduction. -/
def symmetrix_crt_reconstruct (residues : List Nat) (num_primes : Int) : Int × Nat :=
  if num_primes > (SYMMETRIX_NUM_CRT_PRIMES : Int) then (-22, 0)
  else
    let product := crt_product num_primes.toNat
    (0, (List.range num_primes.toNat).foldl
      (fun sum i =>
        let prime := symmetrix_crt_primes.getD i 0
        let m_i := product / prime
        let m_i_inv := symmetrix_galois_pow (m_i % prime) (prime - 2) prime
        let term := ((residues.getD i 0) * m_i % product * m_i_inv) % product
        ((sum + term) % U64MOD) % product) 0)

/-- The value of `SYMMETRIX_RESOURCE_MAX` from the enum
`symmetrix_resource_type` of `symmetrix.h` (staged in
src/kernel/symmetrix-msi-fpga.c:512-521): seven enumerators precede it —
CPU, MEMORY, STORAGE, FPGA, IO, NETWORK and a duplicated STORAGE — so taking
the source text at face value the per-kind loops run over 7 kinds and the
stalk vectors have 7 slots. -/
def SYMMETRIX_RESOURCE_MAX : Nat := 7

/-- The struct `resource_stalk` fields used by the selector and the sampler
(symmetrix.h, staged in src/kernel/symmetrix-msi-fpga.c:555-561): the
per-kind capacity vector `resources[SYMMETRIX_RESOURCE_MAX]` and allocation
vector `allocated[SYMMETRIX_RESOURCE_MAX]`, both arrays of `u64`. -/
structure resource_stalk where
  resources : List Nat
  allocated : List Nat
deriving DecidableEq, Repr

/-- The per-node obstruction loop of `symmetrix_select_cpu`
(symmetrix-core.c:253-257): for each resource kind with
`allocated[i] > resources[i] * 80 / 100` (the `u64` product wrapping at
`2^64`), the code adds the `u64` difference `allocated[i] - resources[i]` —
which wraps below zero — into the running `u64` obstruction. -/
def select_obstruction (stalk : resource_stalk) : Nat :=
  (List.range SYMMETRIX_RESOURCE_MAX).foldl
    (fun obstruction i =>
      if stalk.allocated.getD i 0 > stalk.resources.getD i 0 * 80 % U64MOD / 100 then
        (obstruction + (stalk.allocated.getD i 0 + U64MOD - stalk.resources.getD i 0) % U64MOD)
          % U64MOD
      else obstruction)
    0

/-- Embedding of `symmetrix_select_cpu` (symmetrix-core.c:235-269) over the
list of online CPUs paired with their stalks: disabled selection returns
`prev_cpu`; otherwise the scan keeps the first node of strictly minimal
obstruction, starting from `min_obstruction = ULLONG_MAX` and
`best_cpu = prev_cpu`. -/
def symmetrix_select_cpu (online : List (Nat × resource_stalk)) (prev_cpu : Nat)
    (enable_sheaf_scheduler : Bool) : Nat :=
  if !enable_sheaf_scheduler then prev_cpu
  else
    (online.foldl
      (fun best c =>
        let obstruction := select_obstruction c.2
        if obstruction < best.2 then (c.1, obstruction) else best)
      (prev_cpu, 18446744073709551615)).1

/-- The inner loop of `symmetrix_compute_h2_cohomology`
(symmetrix-core.c:141-147): the per-pair sum of absolute per-kind differences
of the two stalks' `resources[]` vectors (note: the code reads `resources`,
the capacity vector, not `allocated`), accumulated in a `u64`. -/
def resource_diff_pair (a b : resource_stalk) : Nat :=
  (List.range SYMMETRIX_RESOURCE_MAX).foldl
    (fun d k =>
      let x := a.resources.getD k 0
      let y := b.resources.getD k 0
      (d + (if x > y then x - y else y - x)) % U64MOD)
    0

/-- Embedding of `symmetrix_compute_h2_cohomology` (symmetrix-core.c:130-155)
on the list of online-node stalks (the sampler `cohomology_thread_fn` passes
the first `num_online_cpus()` stalks and publishes the result as the
diagnostic dimension): sum `resource_diff_pair` over all unordered pairs in a
`u64`, and return 0 exactly when that sum is zero, else 1. -/
def symmetrix_compute_h2_cohomology (stalks : List resource_stalk) : Nat :=
  let obstruction_sum :=
    (List.range stalks.length).foldl
      (fun acc i =>
        (List.range' (i + 1) (stalks.length - (i + 1))).foldl
          (fun acc2 j =>
            (acc2 + resource_diff_pair (stalks.getD i ⟨[], []⟩) (stalks.getD j ⟨[], []⟩))
              % U64MOD)
          acc)
      0
  if obstruction_sum = 0 then 0 else 1

/-- Embedding of `symmetrix_morton_encode_2d` (symmetrix-core.c:113-123):
bit-interleaving of two 32-bit halves into a `u64`. -/
def symmetrix_morton_encode_2d (x y : Nat) : Nat :=
  (List.range 32).foldl
    (fun result i =>
      result ||| ((x &&& (1 <<< i)) <<< i) ||| ((y &&& (1 <<< i)) <<< (i + 1)))
    0

/-- The struct `tensor_block` metadata filled in by `symmetrix_tensor_alloc`
(the pointer itself is outside the embedding). -/
structure tensor_block where
  size : Nat
  morton_index : Nat
  cache_level : Nat
deriving DecidableEq, Repr

/-- The block-descriptor construction of `symmetrix_tensor_alloc`
(symmetrix-core.c:189-199): Morton index over the two 16-bit halves of
`size` (stored into a `u32` field, hence the `% 2^32`), and the cache tier
classified against the L1/L2 byte thresholds. -/
def symmetrix_tensor_alloc_block (size l1_cache_bytes l2_cache_bytes : Nat) : tensor_block :=
  { size := size
    morton_index :=
      symmetrix_morton_encode_2d (size &&& 65535) ((size >>> 16) &&& 65535) % 4294967296
    cache_level :=
      if size ≤ l1_cache_bytes then 1
      else if size ≤ l2_cache_bytes then 2
      else 3 }

/-- Embedding of `symmetrix_tensor_alloc` (symmetrix-core.c:166-209) at the
level the claims need: with the allocator disabled the call is a plain
pass-through allocation and classifies nothing (`none`); enabled, it builds
and logs the block descriptor. -/
def symmetrix_tensor_alloc (enable_tensor_allocator : Bool)
    (size l1_cache_bytes l2_cache_bytes : Nat) : Option tensor_block :=
  if !enable_tensor_allocator then none
  else some (symmetrix_tensor_alloc_block size l1_cache_bytes l2_cache_bytes)

/-- The obstruction formula exactly as spec §4.2 words it:
`Σ_k max(0, allocated[k] - 0.8 * capacity[k])`, over the rationals
(`0.8 = 4/5`). -/
def spec_obstruction (stalk : resource_stalk) : ℚ :=
  ((List.range SYMMETRIX_RESOURCE_MAX).map
    (fun k =>
      max 0 ((stalk.allocated.getD k 0 : ℚ) - 4 / 5 * (stalk.resources.getD k 0 : ℚ)))).sum

/-- The sampler total exactly as spec §4.3 words it: over every unordered
pair of stalks, the grand total of absolute per-kind differences of the two
`allocated[]` vectors, in exact arithmetic. -/
def allocated_grand_total (stalks : List resource_stalk) : Nat :=
  ((List.range stalks.length).map
    (fun i =>
      ((List.range' (i + 1) (stalks.length - (i + 1))).map
        (fun j =>
          ((List.range SYMMETRIX_RESOURCE_MAX).map
            (fun k =>
              (((stalks.getD i ⟨[], []⟩).allocated.getD k 0 : Int) -
                ((stalks.getD j ⟨[], []⟩).allocated.getD k 0 : Int)).natAbs)).sum)).sum)).sum

/-- The same grand total taken over the `resources[]` (capacity) vectors —
the vectors the code actually compares — in exact arithmetic. -/
def capacity_grand_total (stalks : List resource_stalk) : Nat :=
  ((List.range stalks.length).map
    (fun i =>
      ((List.range' (i + 1) (stalks.length - (i + 1))).map
        (fun j =>
          ((List.range SYMMETRIX_RESOURCE_MAX).map
            (fun k =>
              (((stalks.getD i ⟨[], []⟩).resources.getD k 0 : Int) -
                ((stalks.getD j ⟨[], []⟩).resources.getD k 0 : Int)).natAbs)).sum)).sum)).sum

end Symmetrix

namespace Symmetrix

set_option maxRecDepth 40000

/-! ## Helper lemmas -/

/-- Correctness of the fuel-driven square-and-multiply loop: with enough fuel
for the exponent's bits, the loop leaves `r` untouched on a zero exponent and
otherwise returns `r * b^e mod m`. -/
theorem pow_loop_eq (m : Nat) :
    ∀ fuel e b r, e < 2 ^ fuel →
      pow_loop fuel r b e m = if e = 0 then r else (r * b ^ e) % m := by
  intro fuel
  induction fuel with
  | zero =>
    intro e b r he
    have h0 : e = 0 := Nat.lt_one_iff.mp (by simpa using he)
    simp [pow_loop, h0]
  | succ n ih =>
    intro e b r he
    by_cases h0 : e = 0
    · simp [pow_loop, h0]
    · have he2 : e / 2 < 2 ^ n := by
        have h2n : e < 2 * 2 ^ n := by
          calc e < 2 ^ (n + 1) := he
            _ = 2 * 2 ^ n := by ring
        omega
      rw [show pow_loop (n + 1) r b e m =
            if e = 0 then r else
              pow_loop n (if e % 2 = 1 then (r * b) % m else r) ((b * b) % m) (e / 2) m
          from rfl,
        if_neg h0, ih (e / 2) ((b * b) % m) _ he2]
      by_cases h1 : e / 2 = 0
      · have he1 : e = 1 := by omega
        subst he1
        norm_num
      · rw [if_neg h1, if_neg h0]
        have hr : (if e % 2 = 1 then (r * b) % m else r) ≡ r * b ^ (e % 2) [MOD m] := by
          by_cases hpar : e % 2 = 1
          · simpa [hpar] using Nat.mod_modEq (r * b) m
          · have hz : e % 2 = 0 := by omega
            simp only [hpar, if_false, hz, pow_zero, mul_one]
            rfl
        have hb : ((b * b) % m) ^ (e / 2) ≡ (b * b) ^ (e / 2) [MOD m] :=
          (Nat.mod_modEq (b * b) m).pow _
        have hfin := hr.mul hb
        have heq : r * b ^ (e % 2) * (b * b) ^ (e / 2) = r * b ^ e := by
          have hsplit : e = e % 2 + 2 * (e / 2) := by omega
          conv_rhs => rw [hsplit]
          rw [pow_add, pow_mul]
          ring
        rw [heq] at hfin
        exact hfin

/-- With a zero exponent the C loop body never runs: the unreduced initial
accumulator 1 is returned, whatever the modulus. -/
theorem symmetrix_galois_pow_zero (base m : Nat) : symmetrix_galois_pow base 0 m = 1 := rfl

/-- For positive `u64` exponents the embedded `symmetrix_galois_pow` computes
the mathematical `base ^ e mod m`. -/
theorem symmetrix_galois_pow_eq (base e m : Nat) (he : 0 < e) (hew : e < 2 ^ 64) :
    symmetrix_galois_pow base e m = base ^ e % m := by
  unfold symmetrix_galois_pow
  rw [pow_loop_eq m 64 e (base % m) 1 hew, if_neg (by omega), one_mul, ← Nat.pow_mod]

/-- Generic shape of the `u64` accumulation loops of the C sources: a fold
whose body adds `T i` and reduces mod `M` (or, for guarded bodies, adds
nothing) equals the reduction of the exact sum, provided the body respects
that contract on reduced accumulators. -/
theorem foldl_body_add_mod {α : Type} (M : Nat) (F : Nat → α → Nat) (T : α → Nat)
    (hbody : ∀ a i, a % M = a → F a i = (a + T i) % M) :
    ∀ (l : List α) (acc : Nat), acc % M = acc →
      l.foldl F acc = (acc + (l.map T).sum) % M := by
  intro l
  induction l with
  | nil => intro acc h; simpa using h.symm
  | cons x xs ih =>
    intro acc h
    have hstep : F acc x = (acc + T x) % M := hbody acc x h
    rw [List.foldl_cons, hstep, ih _ (Nat.mod_mod_of_dvd _ dvd_rfl),
      Nat.mod_add_mod, List.map_cons, List.sum_cons, Nat.add_assoc]

end Symmetrix

namespace Symmetrix

/-! ## Claims C4, C5, C7, C9, C10 -/

/-- C4 (counterexample): with modulus m = 2^63 + 1 and both operands 2^63
(reduced field elements of equal modulus, m > 0), the u64 sum wraps to 0, so
the code returns 0 while (a.value + b.value) mod m = 2^63 - 1: the claimed
identity add(a,b).value = (a.value + b.value) mod m fails. -/
theorem C4_counterexample :
    ¬ ((symmetrix_galois_add ⟨9223372036854775808, 9223372036854775809⟩
          ⟨9223372036854775808, 9223372036854775809⟩).value =
        (9223372036854775808 + 9223372036854775808) % 9223372036854775809) := by
  decide

/-- C4 (amended): for elements of equal modulus m > 0 whose value sum does
not overflow the 64-bit accumulator (a.value + b.value < 2^64), add returns
exactly (a.value + b.value) mod m, strictly below m and tagged with m. -/
theorem C4_add_correct (a b : galois_element) (m : Nat)
    (ham : a.modulus = m) (hbm : b.modulus = m) (hm : 0 < m)
    (hsum : a.value + b.value < U64MOD) :
    (symmetrix_galois_add a b).value = (a.value + b.value) % m ∧
      (symmetrix_galois_add a b).value < m ∧
      (symmetrix_galois_add a b).modulus = m := by
  have hmm : ¬ a.modulus ≠ b.modulus := by rw [ham, hbm]; exact not_ne_iff.mpr rfl
  unfold symmetrix_galois_add
  rw [if_neg hmm]
  refine ⟨?_, ?_, ?_⟩
  · simp [Nat.mod_eq_of_lt hsum, ham]
  · simpa [Nat.mod_eq_of_lt hsum, ham] using Nat.mod_lt (a.value + b.value) hm
  · exact ham

/-- Witness for C4_add_correct at a = (3 mod 7), b = (5 mod 7). -/
theorem C4_witness :
    (0 : Nat) < 7 ∧ (3 : Nat) + 5 < U64MOD ∧
      ((symmetrix_galois_add ⟨3, 7⟩ ⟨5, 7⟩).value = (3 + 5) % 7 ∧
        (symmetrix_galois_add ⟨3, 7⟩ ⟨5, 7⟩).value < 7 ∧
        (symmetrix_galois_add ⟨3, 7⟩ ⟨5, 7⟩).modulus = 7) :=
  ⟨by decide, by decide,
    C4_add_correct ⟨3, 7⟩ ⟨5, 7⟩ 7 rfl rfl (by decide) (by decide)⟩

/-- C5 (confirmed): for any two elements of equal modulus m with 0 < m < 2^64
(a u64 modulus), mul returns exactly (a.value * b.value) mod m as computed in
arbitrary-precision arithmetic — the product is formed in the 128-bit
intermediate, which cannot overflow for 64-bit operands — tagged with m. -/
theorem C5_mul_exact (a b : galois_element) (m : Nat)
    (ham : a.modulus = m) (hbm : b.modulus = m) (hm : 0 < m) (hmw : m < U64MOD) :
    (symmetrix_galois_mul a b).value = (a.value * b.value) % m ∧
      (symmetrix_galois_mul a b).modulus = m := by
  have hmm : ¬ a.modulus ≠ b.modulus := by rw [ham, hbm]; exact not_ne_iff.mpr rfl
  unfold symmetrix_galois_mul
  rw [if_neg hmm]
  refine ⟨?_, ham⟩
  have hlt : (a.value * b.value) % m < U64MOD := lt_trans (Nat.mod_lt _ hm) hmw
  rw [ham]
  exact Nat.mod_eq_of_lt hlt

/-- Witness for C5_mul_exact at the wide-intermediate modulus 2^61 - 1
(above 2^32) with near-maximal representatives. -/
theorem C5_witness :
    (0 : Nat) < 2305843009213693951 ∧ (2305843009213693951 : Nat) < U64MOD ∧
      ((symmetrix_galois_mul ⟨2305843009213693950, 2305843009213693951⟩
          ⟨2305843009213693949, 2305843009213693951⟩).value =
        (2305843009213693950 * 2305843009213693949) % 2305843009213693951 ∧
       (symmetrix_galois_mul ⟨2305843009213693950, 2305843009213693951⟩
          ⟨2305843009213693949, 2305843009213693951⟩).modulus = 2305843009213693951) :=
  ⟨by decide, by decide,
    C5_mul_exact ⟨2305843009213693950, 2305843009213693951⟩
      ⟨2305843009213693949, 2305843009213693951⟩ 2305843009213693951
      rfl rfl (by decide) (by decide)⟩

/-- C7 (confirmed): on mismatched moduli both add and mul return, non-fatally
after logging, the degraded element with value 0 tagged with a's modulus. -/
theorem C7_modulus_mismatch (a b : galois_element) (hne : a.modulus ≠ b.modulus) :
    symmetrix_galois_add a b = ⟨0, a.modulus⟩ ∧
      symmetrix_galois_mul a b = ⟨0, a.modulus⟩ := by
  unfold symmetrix_galois_add symmetrix_galois_mul
  rw [if_pos hne, if_pos hne]
  exact ⟨rfl, rfl⟩

/-- Witness for C7_modulus_mismatch at a = (1 mod 3), b = (1 mod 5). -/
theorem C7_witness :
    (3 : Nat) ≠ 5 ∧
      (symmetrix_galois_add ⟨1, 3⟩ ⟨1, 5⟩ = ⟨0, 3⟩ ∧
        symmetrix_galois_mul ⟨1, 3⟩ ⟨1, 5⟩ = ⟨0, 3⟩) :=
  ⟨by decide, C7_modulus_mismatch ⟨1, 3⟩ ⟨1, 5⟩ (by decide)⟩

/-- C9 (confirmed): with the allocator enabled and thresholds L1 = 64 and
L2 = 262144 bytes, the classified cache tier is 1 for size ≤ 64, 2 for
64 < size ≤ 262144, and 3 for size > 262144; in particular sizes 32, 1000
and 1000000 classify as tiers 1, 2 and 3. -/
theorem C9_cache_tiers (size : Nat) :
    (size ≤ 64 →
      (symmetrix_tensor_alloc true size 64 262144).map tensor_block.cache_level = some 1) ∧
    (64 < size → size ≤ 262144 →
      (symmetrix_tensor_alloc true size 64 262144).map tensor_block.cache_level = some 2) ∧
    (262144 < size →
      (symmetrix_tensor_alloc true size 64 262144).map tensor_block.cache_level = some 3) ∧
    (symmetrix_tensor_alloc true 32 64 262144).map tensor_block.cache_level = some 1 ∧
    (symmetrix_tensor_alloc true 1000 64 262144).map tensor_block.cache_level = some 2 ∧
    (symmetrix_tensor_alloc true 1000000 64 262144).map tensor_block.cache_level = some 3 := by
  refine ⟨?_, ?_, ?_, by decide, by decide, by decide⟩
  · intro h1
    simp [symmetrix_tensor_alloc, symmetrix_tensor_alloc_block, h1]
  · intro h1 h2
    simp [symmetrix_tensor_alloc, symmetrix_tensor_alloc_block, h2, Nat.not_le.mpr h1]
  · intro h2
    simp [symmetrix_tensor_alloc, symmetrix_tensor_alloc_block,
      Nat.not_le.mpr h2, Nat.not_le.mpr (show (64 : Nat) < size by omega)]

/-- Witness for C9_cache_tiers at size = 100 (middle tier). -/
theorem C9_witness :
    (64 : Nat) < 100 ∧ (100 : Nat) ≤ 262144 ∧
      (symmetrix_tensor_alloc true 100 64 262144).map tensor_block.cache_level = some 2 :=
  ⟨by decide, by decide, (C9_cache_tiers 100).2.1 (by decide) (by decide)⟩

/-- C10 (confirmed): pow with exponent 0 returns the unreduced 1 for every
base and modulus — in particular for m = 1 the returned 1 equals the modulus
and is not below it — while for every exponent 1 ≤ e < 2^64 and modulus
m ≥ 1 the result is strictly below m. -/
theorem C10_pow_edge :
    (∀ base m : Nat, symmetrix_galois_pow base 0 m = 1) ∧
      (∀ base : Nat, ¬ symmetrix_galois_pow base 0 1 < 1) ∧
      (∀ base e m : Nat, 1 ≤ m → 1 ≤ e → e < 2 ^ 64 →
        symmetrix_galois_pow base e m < m) := by
  refine ⟨fun base m => rfl, fun base => by simp [symmetrix_galois_pow_zero],
    fun base e m hm he hew => ?_⟩
  rw [symmetrix_galois_pow_eq base e m he hew]
  exact Nat.mod_lt _ hm

/-- Witness for C10_pow_edge at base 5, exponent 3, modulus 1 (the reduced
branch collapses to 0 < 1). -/
theorem C10_witness :
    (1 : Nat) ≤ 1 ∧ (1 : Nat) ≤ 3 ∧ (3 : Nat) < 2 ^ 64 ∧
      symmetrix_galois_pow 5 3 1 < 1 :=
  ⟨le_refl 1, by decide, by decide, C10_pow_edge.2.2 5 3 1 (le_refl 1) (by decide) (by decide)⟩

end Symmetrix

namespace Symmetrix

/-! ## Claim C1 -/

/-- C1 (counterexample): for the online stalk with allocated = [900,0,...]
and capacity = [1000,0,...] (selection enabled), the spec formula gives
Σ max(0, allocated - 0.8*capacity) = 100, but the code — whose guarded u64
subtraction is allocated - capacity, not allocated - 0.8*capacity — wraps
below zero and scores 2^64 - 100. -/
theorem C1_counterexample :
    ¬ ((select_obstruction ⟨[1000, 0, 0, 0, 0, 0, 0], [900, 0, 0, 0, 0, 0, 0]⟩ : ℚ) =
        spec_obstruction ⟨[1000, 0, 0, 0, 0, 0, 0], [900, 0, 0, 0, 0, 0, 0]⟩) := by
  have h1 : select_obstruction ⟨[1000, 0, 0, 0, 0, 0, 0], [900, 0, 0, 0, 0, 0, 0]⟩ =
      18446744073709551516 := by decide
  have h2 : spec_obstruction ⟨[1000, 0, 0, 0, 0, 0, 0], [900, 0, 0, 0, 0, 0, 0]⟩ = 100 := by
    unfold spec_obstruction SYMMETRIX_RESOURCE_MAX
    norm_num [List.range_succ]
  rw [h1, h2]
  norm_num

/-- C1 (amended): the per-node score accumulated by select_cpu is the
mod-2^64 reduction of the sum, over the kinds k passing the 80%-gate
`allocated[k] > capacity[k]*80/100` (capacity product taken mod 2^64), of
the wrapping 64-bit difference `allocated[k] - capacity[k]` — the full
capacity is subtracted, not the 80% threshold.  Consequently, only when
every gated kind is at or above full capacity (and nothing wraps) is the
score the exact total over-capacity overflow Σ (allocated[k] - capacity[k]). -/
theorem C1_obstruction_formula (stalk : resource_stalk) :
    (select_obstruction stalk =
      ((List.range SYMMETRIX_RESOURCE_MAX).map
        (fun k =>
          if stalk.allocated.getD k 0 > stalk.resources.getD k 0 * 80 % U64MOD / 100 then
            (stalk.allocated.getD k 0 + U64MOD - stalk.resources.getD k 0) % U64MOD
          else 0)).sum % U64MOD) ∧
    ((∀ k, k < SYMMETRIX_RESOURCE_MAX →
        stalk.resources.getD k 0 ≤ stalk.allocated.getD k 0 ∧
        stalk.allocated.getD k 0 < U64MOD ∧
        stalk.resources.getD k 0 * 80 < U64MOD) →
      ((List.range SYMMETRIX_RESOURCE_MAX).map
        (fun k => stalk.allocated.getD k 0 - stalk.resources.getD k 0)).sum < U64MOD →
      select_obstruction stalk =
        ((List.range SYMMETRIX_RESOURCE_MAX).map
          (fun k => stalk.allocated.getD k 0 - stalk.resources.getD k 0)).sum) := by
  have hclosed : select_obstruction stalk =
      ((List.range SYMMETRIX_RESOURCE_MAX).map
        (fun k =>
          if stalk.allocated.getD k 0 > stalk.resources.getD k 0 * 80 % U64MOD / 100 then
            (stalk.allocated.getD k 0 + U64MOD - stalk.resources.getD k 0) % U64MOD
          else 0)).sum % U64MOD := by
    unfold select_obstruction
    have h := foldl_body_add_mod U64MOD
      (fun obstruction i =>
        if stalk.allocated.getD i 0 > stalk.resources.getD i 0 * 80 % U64MOD / 100 then
          (obstruction + (stalk.allocated.getD i 0 + U64MOD - stalk.resources.getD i 0)
            % U64MOD) % U64MOD
        else obstruction)
      (fun k =>
        if stalk.allocated.getD k 0 > stalk.resources.getD k 0 * 80 % U64MOD / 100 then
          (stalk.allocated.getD k 0 + U64MOD - stalk.resources.getD k 0) % U64MOD
        else 0)
      (by
        intro a i ha
        beta_reduce
        by_cases hc : stalk.allocated.getD i 0 >
            stalk.resources.getD i 0 * 80 % U64MOD / 100
        · rw [if_pos hc, if_pos hc]
        · rw [if_neg hc, if_neg hc, Nat.add_zero, ha])
      (List.range SYMMETRIX_RESOURCE_MAX) 0 rfl
    simpa using h
  refine ⟨hclosed, fun hk hsum => ?_⟩
  rw [hclosed]
  have hmap : (List.range SYMMETRIX_RESOURCE_MAX).map
      (fun k =>
        if stalk.allocated.getD k 0 > stalk.resources.getD k 0 * 80 % U64MOD / 100 then
          (stalk.allocated.getD k 0 + U64MOD - stalk.resources.getD k 0) % U64MOD
        else 0) =
      (List.range SYMMETRIX_RESOURCE_MAX).map
        (fun k => stalk.allocated.getD k 0 - stalk.resources.getD k 0) := by
    apply List.map_congr_left
    intro k hkmem
    obtain ⟨hle, hlt, hgate⟩ := hk k (List.mem_range.mp hkmem)
    have hmod : stalk.resources.getD k 0 * 80 % U64MOD = stalk.resources.getD k 0 * 80 :=
      Nat.mod_eq_of_lt hgate
    by_cases hz : stalk.allocated.getD k 0 = 0
    · have hres : stalk.resources.getD k 0 = 0 := by omega
      rw [hz, hres]
      decide
    · rw [if_pos (by rw [hmod]; simp only [U64MOD] at hgate ⊢; omega)]
      simp only [U64MOD] at hlt ⊢
      omega
  rw [hmap, Nat.mod_eq_of_lt hsum]

/-- Witness for C1_obstruction_formula: a node 100% over capacity on its
first kind; the score is the exact overflow 1000. -/
theorem C1_witness :
    select_obstruction ⟨[1000, 0, 0, 0, 0, 0, 0], [2000, 0, 0, 0, 0, 0, 0]⟩ =
      ((List.range SYMMETRIX_RESOURCE_MAX).map
        (fun k =>
          (resource_stalk.mk [1000, 0, 0, 0, 0, 0, 0] [2000, 0, 0, 0, 0, 0, 0]).allocated.getD k 0 -
            (resource_stalk.mk [1000, 0, 0, 0, 0, 0, 0] [2000, 0, 0, 0, 0, 0, 0]).resources.getD k 0)).sum :=
  (C1_obstruction_formula ⟨[1000, 0, 0, 0, 0, 0, 0], [2000, 0, 0, 0, 0, 0, 0]⟩).2
    (by decide) (by decide)

end Symmetrix

namespace Symmetrix

/-! ## Claim C3 -/

/-- The per-pair u64 accumulation of `symmetrix_compute_h2_cohomology` equals
the mod-2^64 reduction of the exact per-pair total of absolute differences of
the two capacity vectors. -/
theorem resource_diff_pair_eq (a b : resource_stalk) :
    resource_diff_pair a b =
      ((List.range SYMMETRIX_RESOURCE_MAX).map
        (fun k => ((a.resources.getD k 0 : Int) - (b.resources.getD k 0 : Int)).natAbs)).sum
        % U64MOD := by
  unfold resource_diff_pair
  have h := foldl_body_add_mod U64MOD
    (fun d k =>
      let x := a.resources.getD k 0
      let y := b.resources.getD k 0
      (d + (if x > y then x - y else y - x)) % U64MOD)
    (fun k => ((a.resources.getD k 0 : Int) - (b.resources.getD k 0 : Int)).natAbs)
    (by
      intro d k hd
      show (d + (if a.resources.getD k 0 > b.resources.getD k 0
            then a.resources.getD k 0 - b.resources.getD k 0
            else b.resources.getD k 0 - a.resources.getD k 0)) % U64MOD =
          (d + ((a.resources.getD k 0 : Int) - (b.resources.getD k 0 : Int)).natAbs) % U64MOD
      by_cases hxy : a.resources.getD k 0 > b.resources.getD k 0
      · rw [if_pos hxy]
        congr 2
        omega
      · rw [if_neg hxy]
        congr 2
        omega)
    (List.range SYMMETRIX_RESOURCE_MAX) 0 rfl
  simpa using h

/-- C3 (counterexample): two online stalks with identical capacity vectors
but different `allocated[]` vectors: the grand total over `allocated[]`
differences is 5 ≠ 0, yet the published diagnostic dimension is 0 — the code
compares the `resources[]` (capacity) vectors, not `allocated[]`, so the
claimed equivalence fails. -/
theorem C3_counterexample :
    symmetrix_compute_h2_cohomology
        [⟨[7, 7, 7, 7, 7, 7, 7], [5, 0, 0, 0, 0, 0, 0]⟩,
         ⟨[7, 7, 7, 7, 7, 7, 7], [0, 0, 0, 0, 0, 0, 0]⟩] = 0 ∧
      allocated_grand_total
        [⟨[7, 7, 7, 7, 7, 7, 7], [5, 0, 0, 0, 0, 0, 0]⟩,
         ⟨[7, 7, 7, 7, 7, 7, 7], [0, 0, 0, 0, 0, 0, 0]⟩] ≠ 0 := by
  constructor
  · decide
  · decide

/-- C3 (amended): with the grand total taken over the stalks' `resources[]`
(capacity) vectors — the vectors the code actually compares — and below the
u64 wrap bound, the published diagnostic dimension is 0 iff that total is
exactly zero, else 1. -/
theorem C3_h2_dimension (stalks : List resource_stalk)
    (hb : capacity_grand_total stalks < U64MOD) :
    symmetrix_compute_h2_cohomology stalks = 0 ↔ capacity_grand_total stalks = 0 := by
  have hle : ∀ i ∈ List.range stalks.length,
      ∀ j ∈ List.range' (i + 1) (stalks.length - (i + 1)),
        ((List.range SYMMETRIX_RESOURCE_MAX).map
          (fun k => (((stalks.getD i ⟨[], []⟩).resources.getD k 0 : Int) -
            ((stalks.getD j ⟨[], []⟩).resources.getD k 0 : Int)).natAbs)).sum ≤
          capacity_grand_total stalks := by
    intro i hi j hj
    unfold capacity_grand_total
    refine le_trans
      (List.le_sum_of_mem (List.mem_map_of_mem
        (fun j => ((List.range SYMMETRIX_RESOURCE_MAX).map
          (fun k => (((stalks.getD i ⟨[], []⟩).resources.getD k 0 : Int) -
            ((stalks.getD j ⟨[], []⟩).resources.getD k 0 : Int)).natAbs)).sum) hj))
      (List.le_sum_of_mem (List.mem_map_of_mem
        (fun i => ((List.range' (i + 1) (stalks.length - (i + 1))).map
          (fun j => ((List.range SYMMETRIX_RESOURCE_MAX).map
            (fun k => (((stalks.getD i ⟨[], []⟩).resources.getD k 0 : Int) -
              ((stalks.getD j ⟨[], []⟩).resources.getD k 0 : Int)).natAbs)).sum)).sum) hi))
  have hmain : symmetrix_compute_h2_cohomology stalks =
      if capacity_grand_total stalks = 0 then 0 else 1 := by
    unfold symmetrix_compute_h2_cohomology
    have houter := foldl_body_add_mod U64MOD
      (fun acc i =>
        (List.range' (i + 1) (stalks.length - (i + 1))).foldl
          (fun acc2 j =>
            (acc2 + resource_diff_pair (stalks.getD i ⟨[], []⟩) (stalks.getD j ⟨[], []⟩))
              % U64MOD)
          acc)
      (fun i =>
        ((List.range' (i + 1) (stalks.length - (i + 1))).map
          (fun j => resource_diff_pair (stalks.getD i ⟨[], []⟩) (stalks.getD j ⟨[], []⟩))).sum)
      (fun acc i hacc =>
        foldl_body_add_mod U64MOD _
          (fun j => resource_diff_pair (stalks.getD i ⟨[], []⟩) (stalks.getD j ⟨[], []⟩))
          (fun a j ha => rfl)
          (List.range' (i + 1) (stalks.length - (i + 1))) acc hacc)
      (List.range stalks.length) 0 rfl
    rw [houter]
    have hmapeq :
        ((List.range stalks.length).map
          (fun i =>
            ((List.range' (i + 1) (stalks.length - (i + 1))).map
              (fun j =>
                resource_diff_pair (stalks.getD i ⟨[], []⟩) (stalks.getD j ⟨[], []⟩))).sum)) =
        ((List.range stalks.length).map
          (fun i =>
            ((List.range' (i + 1) (stalks.length - (i + 1))).map
              (fun j =>
                ((List.range SYMMETRIX_RESOURCE_MAX).map
                  (fun k => (((stalks.getD i ⟨[], []⟩).resources.getD k 0 : Int) -
                    ((stalks.getD j ⟨[], []⟩).resources.getD k 0 : Int)).natAbs)).sum)).sum)) := by
      apply List.map_congr_left
      intro i hi
      congr 1
      apply List.map_congr_left
      intro j hj
      rw [resource_diff_pair_eq]
      exact Nat.mod_eq_of_lt (lt_of_le_of_lt (hle i hi j hj) hb)
    rw [hmapeq]
    have hcgt : ((List.range stalks.length).map
        (fun i =>
          ((List.range' (i + 1) (stalks.length - (i + 1))).map
            (fun j =>
              ((List.range SYMMETRIX_RESOURCE_MAX).map
                (fun k => (((stalks.getD i ⟨[], []⟩).resources.getD k 0 : Int) -
                  ((stalks.getD j ⟨[], []⟩).resources.getD k 0 : Int)).natAbs)).sum)).sum)).sum =
        capacity_grand_total stalks := rfl
    rw [Nat.zero_add, hcgt, Nat.mod_eq_of_lt hb]
  rw [hmain]
  by_cases hz : capacity_grand_total stalks = 0
  · simp [hz]
  · simp [hz]

/-- Witness for C3_h2_dimension: two stalks whose capacity vectors differ in
one kind; the dimension is 1 and the capacity grand total is 2. -/
theorem C3_witness :
    capacity_grand_total
        [⟨[5, 0, 0, 0, 0, 0, 0], [0, 0, 0, 0, 0, 0, 0]⟩,
         ⟨[7, 0, 0, 0, 0, 0, 0], [0, 0, 0, 0, 0, 0, 0]⟩] < U64MOD ∧
      (symmetrix_compute_h2_cohomology
          [⟨[5, 0, 0, 0, 0, 0, 0], [0, 0, 0, 0, 0, 0, 0]⟩,
           ⟨[7, 0, 0, 0, 0, 0, 0], [0, 0, 0, 0, 0, 0, 0]⟩] = 0 ↔
        capacity_grand_total
          [⟨[5, 0, 0, 0, 0, 0, 0], [0, 0, 0, 0, 0, 0, 0]⟩,
           ⟨[7, 0, 0, 0, 0, 0, 0], [0, 0, 0, 0, 0, 0, 0]⟩] = 0) :=
  ⟨by decide,
    C3_h2_dimension
      [⟨[5, 0, 0, 0, 0, 0, 0], [0, 0, 0, 0, 0, 0, 0]⟩,
       ⟨[7, 0, 0, 0, 0, 0, 0], [0, 0, 0, 0, 0, 0, 0]⟩] (by decide)⟩

end Symmetrix

namespace Symmetrix

/-! ## Claim C2 -/

/-- C2 (counterexample): already at k = 3 the u64 accumulation of the prime
product wraps (the true product ≈ 9.9·10^27 exceeds 2^64), so the round trip
fails: v = 5 is far below the product of the first three primes, yet
reconstruct(decompose(5, 3), 3) does not return 5. -/
theorem C2_counterexample :
    (5 : Nat) < crt_prime_product (3 : Int).toNat ∧
      symmetrix_crt_reconstruct
        (symmetrix_crt_decompose 5 [0, 0, 0, 0, 0, 0, 0, 0] 3).2 3 ≠
        ((0 : Int), (5 : Nat)) := by
  constructor
  · decide
  · decide

/-- C2 (amended): the round trip holds exactly on the prefix of the table
whose true prime product still fits the u64 product accumulator — with primes
near 2^31 that is k ∈ {1, 2}: for every such k and every v below the product
of the first k primes, reconstruct(decompose(v, k), k) succeeds with v. -/
theorem C2_crt_round_trip (k : Int) (v : Nat)
    (hk1 : 1 ≤ k) (hk2 : k ≤ 2)
    (hv : v < crt_prime_product k.toNat) :
    symmetrix_crt_reconstruct
      (symmetrix_crt_decompose v [0, 0, 0, 0, 0, 0, 0, 0] k).2 k = (0, v) := by
  have hk : k = 1 ∨ k = 2 := by omega
  rcases hk with rfl | rfl
  · have hp1 : crt_prime_product (1 : Int).toNat = 2147483647 := rfl
    rw [hp1] at hv
    have hd : (symmetrix_crt_decompose v [0, 0, 0, 0, 0, 0, 0, 0] 1).2 =
        [v % 2147483647, 0, 0, 0, 0, 0, 0, 0] := rfl
    rw [hd]
    show (0, ((0 + ((v % 2147483647) * 1 % 2147483647 *
        (symmetrix_galois_pow (1 % 2147483647) (2147483647 - 2) 2147483647)) % 2147483647)
          % U64MOD) % 2147483647) = ((0 : Int), v)
    have hg : symmetrix_galois_pow (1 % 2147483647) (2147483647 - 2) 2147483647 = 1 := by
      decide
    rw [hg]
    have harith : ((0 + (v % 2147483647 * 1 % 2147483647 * 1) % 2147483647) % U64MOD)
        % 2147483647 = v := by
      simp only [U64MOD]
      omega
    exact congrArg (fun x => ((0 : Int), x)) harith
  · have hp2 : crt_prime_product (2 : Int).toNat = 4611685975477714963 := rfl
    rw [hp2] at hv
    have hd : (symmetrix_crt_decompose v [0, 0, 0, 0, 0, 0, 0, 0] 2).2 =
        [v % 2147483647, v % 2147483629, 0, 0, 0, 0, 0, 0] := rfl
    rw [hd]
    show (0,
        ((((0 + (v % 2147483647 * 2147483629 % 4611685975477714963 *
            (symmetrix_galois_pow (2147483629 % 2147483647) (2147483647 - 2) 2147483647)
              % 4611685975477714963)) % U64MOD) % 4611685975477714963 +
          (v % 2147483629 * 2147483647 % 4611685975477714963 *
            (symmetrix_galois_pow (2147483647 % 2147483629) (2147483629 - 2) 2147483629)
              % 4611685975477714963)) % U64MOD) % 4611685975477714963) = ((0 : Int), v)
    have hg0 : symmetrix_galois_pow (2147483629 % 2147483647) (2147483647 - 2) 2147483647 =
        119304647 := by decide
    have hg1 : symmetrix_galois_pow (2147483647 % 2147483629) (2147483629 - 2) 2147483629 =
        2028178983 := by decide
    rw [hg0, hg1]
    have harith :
        ((((0 + (v % 2147483647 * 2147483629 % 4611685975477714963 * 119304647
            % 4611685975477714963)) % U64MOD) % 4611685975477714963 +
          (v % 2147483629 * 2147483647 % 4611685975477714963 * 2028178983
            % 4611685975477714963)) % U64MOD) % 4611685975477714963 = v := by
      set t0 : Nat := v % 2147483647 * 2147483629 % 4611685975477714963 * 119304647
          % 4611685975477714963 with ht0
      set t1 : Nat := v % 2147483629 * 2147483647 % 4611685975477714963 * 2028178983
          % 4611685975477714963 with ht1
      have h0lt : t0 < 4611685975477714963 := Nat.mod_lt _ (by norm_num)
      have h1lt : t1 < 4611685975477714963 := Nat.mod_lt _ (by norm_num)
      have hz : (0 + t0) % U64MOD = t0 := by
        rw [Nat.zero_add]
        exact Nat.mod_eq_of_lt (by simp only [U64MOD]; omega)
      rw [hz, Nat.mod_eq_of_lt (show t0 < 4611685975477714963 from h0lt),
        Nat.mod_eq_of_lt (show t0 + t1 < U64MOD by simp only [U64MOD]; omega)]
      have hdv0 : (2147483647 : Nat) ∣ 4611685975477714963 := ⟨2147483629, by norm_num⟩
      have hdv1 : (2147483629 : Nat) ∣ 4611685975477714963 := ⟨2147483647, by norm_num⟩
      have hmp0 : (t0 + t1) % 4611685975477714963 ≡ v [MOD 2147483647] := by
        have ht0m : t0 ≡ v [MOD 2147483647] := by
          calc t0 ≡ v % 2147483647 * 2147483629 % 4611685975477714963 * 119304647
                [MOD 2147483647] :=
              Nat.ModEq.of_dvd hdv0 (Nat.mod_modEq _ _)
            _ ≡ v % 2147483647 * 2147483629 * 119304647 [MOD 2147483647] :=
              Nat.ModEq.mul_right _ (Nat.ModEq.of_dvd hdv0 (Nat.mod_modEq _ _))
            _ = v % 2147483647 * (2147483629 * 119304647) := by ring
            _ ≡ v * 1 [MOD 2147483647] :=
              Nat.ModEq.mul (Nat.mod_modEq v 2147483647) (by decide)
            _ = v := by ring
        have ht1m : t1 ≡ 0 [MOD 2147483647] := by
          calc t1 ≡ v % 2147483629 * 2147483647 % 4611685975477714963 * 2028178983
                [MOD 2147483647] :=
              Nat.ModEq.of_dvd hdv0 (Nat.mod_modEq _ _)
            _ ≡ v % 2147483629 * 2147483647 * 2028178983 [MOD 2147483647] :=
              Nat.ModEq.mul_right _ (Nat.ModEq.of_dvd hdv0 (Nat.mod_modEq _ _))
            _ ≡ 0 [MOD 2147483647] :=
              (Nat.modEq_zero_iff_dvd).mpr
                (dvd_mul_of_dvd_left (dvd_mul_left 2147483647 (v % 2147483629)) 2028178983)
        calc (t0 + t1) % 4611685975477714963 ≡ t0 + t1 [MOD 2147483647] :=
            Nat.ModEq.of_dvd hdv0 (Nat.mod_modEq _ _)
          _ ≡ v + 0 [MOD 2147483647] := Nat.ModEq.add ht0m ht1m
          _ = v := by ring
      have hmp1 : (t0 + t1) % 4611685975477714963 ≡ v [MOD 2147483629] := by
        have ht0m : t0 ≡ 0 [MOD 2147483629] := by
          calc t0 ≡ v % 2147483647 * 2147483629 % 4611685975477714963 * 119304647
                [MOD 2147483629] :=
              Nat.ModEq.of_dvd hdv1 (Nat.mod_modEq _ _)
            _ ≡ v % 2147483647 * 2147483629 * 119304647 [MOD 2147483629] :=
              Nat.ModEq.mul_right _ (Nat.ModEq.of_dvd hdv1 (Nat.mod_modEq _ _))
            _ ≡ 0 [MOD 2147483629] :=
              (Nat.modEq_zero_iff_dvd).mpr
                (dvd_mul_of_dvd_left (dvd_mul_left 2147483629 (v % 2147483647)) 119304647)
        have ht1m : t1 ≡ v [MOD 2147483629] := by
          calc t1 ≡ v % 2147483629 * 2147483647 % 4611685975477714963 * 2028178983
                [MOD 2147483629] :=
              Nat.ModEq.of_dvd hdv1 (Nat.mod_modEq _ _)
            _ ≡ v % 2147483629 * 2147483647 * 2028178983 [MOD 2147483629] :=
              Nat.ModEq.mul_right _ (Nat.ModEq.of_dvd hdv1 (Nat.mod_modEq _ _))
            _ = v % 2147483629 * (2147483647 * 2028178983) := by ring
            _ ≡ v * 1 [MOD 2147483629] :=
              Nat.ModEq.mul (Nat.mod_modEq v 2147483629) (by decide)
            _ = v := by ring
        calc (t0 + t1) % 4611685975477714963 ≡ t0 + t1 [MOD 2147483629] :=
            Nat.ModEq.of_dvd hdv1 (Nat.mod_modEq _ _)
          _ ≡ 0 + v [MOD 2147483629] := Nat.ModEq.add ht0m ht1m
          _ = v := by ring
      have hco : Nat.Coprime 2147483647 2147483629 := by decide
      have hcomb := (Nat.modEq_and_modEq_iff_modEq_mul hco).mp ⟨hmp0, hmp1⟩
      have hP2 : (2147483647 : Nat) * 2147483629 = 4611685975477714963 := by norm_num
      rw [hP2] at hcomb
      have h' : (t0 + t1) % 4611685975477714963 % 4611685975477714963 =
          v % 4611685975477714963 := hcomb
      rwa [Nat.mod_mod_of_dvd _ dvd_rfl, Nat.mod_eq_of_lt hv] at h'
    exact congrArg (fun x => ((0 : Int), x)) harith

/-- Witness for C2_crt_round_trip at k = 2, v = 123456789123456789. -/
theorem C2_witness :
    (1 : Int) ≤ 2 ∧ (2 : Int) ≤ 2 ∧
      (123456789123456789 : Nat) < crt_prime_product (2 : Int).toNat ∧
      symmetrix_crt_reconstruct
        (symmetrix_crt_decompose 123456789123456789 [0, 0, 0, 0, 0, 0, 0, 0] 2).2 2 =
        (0, 123456789123456789) :=
  ⟨by decide, by decide, by decide,
    C2_crt_round_trip 2 123456789123456789 (by decide) (by decide) (by decide)⟩

end Symmetrix

namespace Symmetrix

/-! ## Claim C8 -/

end Symmetrix

namespace Symmetrix

/-! ## Claim C6 -/

/-- Helper: with opposite (or zero) signs and a nonnegative quotient, the
Euclid coefficient update grows in absolute value additively. -/
theorem abs_sub_mul_of_oppsign (a b q : Int) (hab : a * b ≤ 0) (hq : 0 ≤ q) :
    |a - q * b| = |a| + q * |b| := by
  rcases mul_nonpos_iff.mp hab with ⟨ha, hb⟩ | ⟨ha, hb⟩
  · have hqb : q * b ≤ 0 := mul_nonpos_iff.mpr (Or.inl ⟨hq, hb⟩)
    rw [abs_of_nonneg ha, abs_of_nonpos hb, abs_of_nonneg (by linarith)]
    ring
  · have hqb : 0 ≤ q * b := mul_nonneg hq hb
    rw [abs_of_nonpos ha, abs_of_nonneg hb, abs_of_nonpos (by linarith)]
    ring

/-- Invariants of the extended Euclidean loop on nonnegative `s64` state,
for the initial data `(m, v)`: on exit the remainder is the gcd, the Bezout
identity holds for the returned coefficient, and the coefficient magnitudes
obey `old_r * |s| = m` and `|old_s| ≤ |s|` (the determinant identity of the
convergent matrix, which bounds the answer below the modulus). -/
theorem inv_loop_spec (m v : Nat) :
    ∀ (fuel : Nat) (st : euclid_state),
      st.r.natAbs < fuel →
      0 ≤ st.r → st.r < st.old_r →
      st.old_s * v + st.old_t * m = st.old_r →
      st.s * v + st.t * m = st.r →
      st.old_s * st.s ≤ 0 →
      st.old_r * |st.s| + st.r * |st.old_s| = (m : Int) →
      |st.old_s| ≤ |st.s| →
      Nat.gcd st.old_r.toNat st.r.toNat = Nat.gcd m v →
      ((inv_loop fuel st).r = 0 ∧
        0 < (inv_loop fuel st).old_r ∧
        (inv_loop fuel st).old_r.toNat = Nat.gcd m v ∧
        (inv_loop fuel st).old_s * v + (inv_loop fuel st).old_t * m =
          (inv_loop fuel st).old_r ∧
        (inv_loop fuel st).old_r * |(inv_loop fuel st).s| = (m : Int) ∧
        |(inv_loop fuel st).old_s| ≤ |(inv_loop fuel st).s|) := by
  intro fuel
  induction fuel with
  | zero =>
    intro st hfuel
    exact absurd hfuel (Nat.not_lt_zero _)
  | succ n ih =>
    intro st hfuel hr0 hrlt hbezo hbezc hsign hmag hmono hgcd
    by_cases hz : st.r = 0
    · have hstep : inv_loop (n + 1) st = st := by
        rw [inv_loop, if_pos hz]
      rw [hstep]
      have hpos : 0 < st.old_r := by rw [hz] at hrlt; exact hrlt
      refine ⟨hz, hpos, ?_, hbezo, ?_, hmono⟩
      · rw [← hgcd, hz]
        simp
      · have : st.r * |st.old_s| = 0 := by rw [hz]; ring
        linarith [hmag]
    · have hrpos : 0 < st.r := lt_of_le_of_ne hr0 (Ne.symm hz)
      set q := Int.tdiv st.old_r st.r with hqdef
      have hqe : q = st.old_r / st.r := Int.tdiv_eq_ediv (by linarith) (by linarith)
      have hr' : st.old_r - q * st.r = st.old_r % st.r := by
        rw [hqe, Int.emod_def]
        ring
      have hr'0 : 0 ≤ st.old_r - q * st.r := by
        rw [hr']
        exact Int.emod_nonneg st.old_r (ne_of_gt hrpos)
      have hr'lt : st.old_r - q * st.r < st.r := by
        rw [hr']
        exact Int.emod_lt_of_pos st.old_r hrpos
      have hq1 : 1 ≤ q := by
        rw [hqe]
        rw [Int.le_ediv_iff_mul_le hrpos]
        linarith
      have hq0 : 0 ≤ q := by linarith
      set st' : euclid_state :=
        { old_r := st.r, r := st.old_r - q * st.r
          old_s := st.s, s := st.old_s - q * st.s
          old_t := st.t, t := st.old_t - q * st.t } with hst'
      have hstep : inv_loop (n + 1) st = inv_loop n st' := by
        rw [inv_loop, if_neg hz]
      rw [hstep]
      have habs : |st.old_s - q * st.s| = |st.old_s| + q * |st.s| :=
        abs_sub_mul_of_oppsign st.old_s st.s q hsign hq0
      apply ih st'
      · show (st.old_r - q * st.r).natAbs < n
        omega
      · exact hr'0
      · exact hr'lt
      · show st.s * v + st.t * m = st.r
        exact hbezc
      · show (st.old_s - q * st.s) * v + (st.old_t - q * st.t) * m = st.old_r - q * st.r
        linear_combination hbezo - q * hbezc
      · show st.s * (st.old_s - q * st.s) ≤ 0
        have hexp : st.s * (st.old_s - q * st.s) = st.old_s * st.s - q * (st.s * st.s) := by
          ring
        rw [hexp]
        have := mul_nonneg hq0 (mul_self_nonneg st.s)
        linarith
      · show st.r * |st.old_s - q * st.s| + (st.old_r - q * st.r) * |st.s| = (m : Int)
        rw [habs]
        linear_combination hmag
      · show |st.s| ≤ |st.old_s - q * st.s|
        rw [habs]
        have h1 : |st.s| ≤ q * |st.s| := le_mul_of_one_le_left (abs_nonneg _) hq1
        linarith [abs_nonneg st.old_s]
      · show Nat.gcd st.r.toNat (st.old_r - q * st.r).toNat = Nat.gcd m v
        rw [← hgcd]
        have hcast : ((st.old_r - q * st.r).toNat : Int) =
            ((st.old_r.toNat % st.r.toNat : Nat) : Int) := by
          rw [Int.toNat_of_nonneg hr'0, hr']
          push_cast
          rw [Int.toNat_of_nonneg (by linarith : (0:Int) ≤ st.old_r),
            Int.toNat_of_nonneg (by linarith : (0:Int) ≤ st.r)]
        have hmodnat : (st.old_r - q * st.r).toNat = st.old_r.toNat % st.r.toNat :=
          Int.ofNat_inj.mp hcast
        rw [hmodnat]
        rw [Nat.gcd_comm st.r.toNat _, ← Nat.gcd_rec, Nat.gcd_comm]

/-- The Fermat residue 5^(P-1) mod P for P = 27·2^59 + 1, computed through
the embedded square-and-multiply loop. -/
theorem pow_mod_cert_full :
    (5 : Nat) ^ 15564440312192434176 % 15564440312192434177 = 1 := by
  have hE := symmetrix_galois_pow_eq 5 15564440312192434176 15564440312192434177
    (by norm_num) (by norm_num)
  have hG : symmetrix_galois_pow 5 15564440312192434176 15564440312192434177 = 1 := by
    decide
  rw [← hE]
  exact hG

/-- The residue 5^((P-1)/2) mod P: it is P - 1, not 1. -/
theorem pow_mod_cert_half :
    (5 : Nat) ^ 7782220156096217088 % 15564440312192434177 = 15564440312192434176 := by
  have hE := symmetrix_galois_pow_eq 5 7782220156096217088 15564440312192434177
    (by norm_num) (by norm_num)
  have hG : symmetrix_galois_pow 5 7782220156096217088 15564440312192434177 =
      15564440312192434176 := by decide
  rw [← hE]
  exact hG

/-- The residue 5^((P-1)/3) mod P: different from 1. -/
theorem pow_mod_cert_third :
    (5 : Nat) ^ 5188146770730811392 % 15564440312192434177 = 1388037154900824795 := by
  have hE := symmetrix_galois_pow_eq 5 5188146770730811392 15564440312192434177
    (by norm_num) (by norm_num)
  have hG : symmetrix_galois_pow 5 5188146770730811392 15564440312192434177 =
      1388037154900824795 := by decide
  rw [← hE]
  exact hG

/-- Lucas (Pratt) primality certificate for P = 27·2^59 + 1, a 64-bit prime
above 2^63: 5 has order P - 1 = 2^59 · 3^3 modulo P. -/
theorem prime_15564440312192434177 : Nat.Prime 15564440312192434177 := by
  have hone : (1 : Nat) % 15564440312192434177 = 1 := by norm_num
  apply lucas_primality 15564440312192434177 ((5 : Nat) : ZMod 15564440312192434177)
  · have hcast : ((5 : Nat) : ZMod 15564440312192434177) ^ 15564440312192434176 =
        ((1 : Nat) : ZMod 15564440312192434177) := by
      rw [← Nat.cast_pow, ZMod.natCast_eq_natCast_iff]
      show (5 : Nat) ^ 15564440312192434176 % 15564440312192434177 = 1 % 15564440312192434177
      rw [pow_mod_cert_full, hone]
    have hm1 : (15564440312192434177 : Nat) - 1 = 15564440312192434176 := by norm_num
    rw [hm1]
    simpa using hcast
  · intro q hq hdvd
    have hm1 : (15564440312192434177 : Nat) - 1 = 15564440312192434176 := by norm_num
    rw [hm1] at hdvd ⊢
    have hfact : (15564440312192434176 : Nat) = 2 ^ 59 * 3 ^ 3 := by norm_num
    have hq23 : q = 2 ∨ q = 3 := by
      rw [hfact] at hdvd
      rcases (Nat.Prime.dvd_mul hq).mp hdvd with h | h
      · exact Or.inl ((Nat.prime_dvd_prime_iff_eq hq Nat.prime_two).mp (hq.dvd_of_dvd_pow h))
      · exact Or.inr ((Nat.prime_dvd_prime_iff_eq hq Nat.prime_three).mp (hq.dvd_of_dvd_pow h))
    rcases hq23 with rfl | rfl
    · have hdiv : (15564440312192434176 : Nat) / 2 = 7782220156096217088 := by norm_num
      rw [hdiv]
      intro hcontra
      have hc' : ((5 : Nat) : ZMod 15564440312192434177) ^ 7782220156096217088 =
          ((1 : Nat) : ZMod 15564440312192434177) := by simpa using hcontra
      rw [← Nat.cast_pow, ZMod.natCast_eq_natCast_iff] at hc'
      have h' : (5 : Nat) ^ 7782220156096217088 % 15564440312192434177 =
          1 % 15564440312192434177 := hc'
      rw [pow_mod_cert_half, hone] at h'
      norm_num at h'
    · have hdiv : (15564440312192434176 : Nat) / 3 = 5188146770730811392 := by norm_num
      rw [hdiv]
      intro hcontra
      have hc' : ((5 : Nat) : ZMod 15564440312192434177) ^ 5188146770730811392 =
          ((1 : Nat) : ZMod 15564440312192434177) := by simpa using hcontra
      rw [← Nat.cast_pow, ZMod.natCast_eq_natCast_iff] at hc'
      have h' : (5 : Nat) ^ 5188146770730811392 % 15564440312192434177 =
          1 % 15564440312192434177 := hc'
      rw [pow_mod_cert_third, hone] at h'
      norm_num at h'

/-- C6 (counterexample): for the prime modulus P = 27·2^59 + 1 > 2^63 the
`s64` reinterpretation of the modulus is negative, the Euclid loop computes a
Bezout coefficient for (P - 2^64, 2) instead of (P, 2), and
mul(a, inv(a)).value = 2^64 - P - 1 ≠ 1 for the element a = (2 mod P). -/
theorem C6_counterexample :
    Nat.Prime 15564440312192434177 ∧ (0 : Nat) < 2 ∧ (2 : Nat) < 15564440312192434177 ∧
      ¬ (symmetrix_galois_mul ⟨2, 15564440312192434177⟩
          (symmetrix_galois_inv ⟨2, 15564440312192434177⟩)).value = 1 :=
  ⟨prime_15564440312192434177, by decide, by decide, by decide⟩

/-- C6 (amended): for every element with prime modulus m below 2^63 (so the
`s64` locals faithfully carry the unsigned inputs) and 0 < value < m, the
extended-Euclidean inverse is a genuine multiplicative inverse:
mul(a, inv(a)).value = 1. -/
theorem C6_inv_mul_one (a : galois_element) (hp : Nat.Prime a.modulus)
    (hsmall : a.modulus < 9223372036854775808)
    (hv0 : 0 < a.value) (hvm : a.value < a.modulus) :
    (symmetrix_galois_mul a (symmetrix_galois_inv a)).value = 1 := by
  set m := a.modulus with hmdef
  set v := a.value with hvdef
  have hm2 : 2 ≤ m := hp.two_le
  have hvne : ¬ v = 0 := by omega
  have hts_m : toS64 m = (m : Int) := by rw [toS64, if_pos hsmall]
  have hts_v : toS64 v = (v : Int) := by rw [toS64, if_pos (by omega)]
  have hfuel : (toS64 v).natAbs + 1 = v + 1 := by rw [hts_v]; simp
  have hinv : symmetrix_galois_inv a =
      galois_inv_post a (inv_loop (v + 1)
        { old_r := (m : Int), r := (v : Int), old_s := 0, s := 1, old_t := 1, t := 0 }) := by
    rw [symmetrix_galois_inv, if_neg hvne, hfuel, hts_m, hts_v]
  have hgv : Nat.gcd m v = 1 := by
    have hco : Nat.Coprime m v :=
      (Nat.Prime.coprime_iff_not_dvd hp).mpr
        (fun hdvd => absurd (Nat.le_of_dvd hv0 hdvd) (not_le.mpr hvm))
    exact hco
  have hspec := inv_loop_spec m v (v + 1)
    { old_r := (m : Int), r := (v : Int), old_s := 0, s := 1, old_t := 1, t := 0 }
    (by simp)
    (by show (0 : Int) ≤ ((v : Nat) : Int); exact_mod_cast Nat.zero_le v)
    (by show ((v : Nat) : Int) < ((m : Nat) : Int); exact_mod_cast hvm)
    (by push_cast; ring)
    (by push_cast; ring)
    (by norm_num)
    (by norm_num)
    (by norm_num)
    (by simp)
  set F := inv_loop (v + 1)
    { old_r := (m : Int), r := (v : Int), old_s := 0, s := 1, old_t := 1, t := 0 } with hF
  obtain ⟨hfr, hfpos, hfgcd, hfbez, hfmag, hfle⟩ := hspec
  rw [hgv] at hfgcd
  have hold1 : F.old_r = 1 := by omega
  rw [hold1] at hfbez hfmag
  have hmagm : |F.s| = (m : Int) := by linarith [hfmag]
  have hSlt : |F.old_s| < (m : Int) := by
    rcases lt_or_eq_of_le (hmagm ▸ hfle) with h | h
    · exact h
    · exfalso
      rcases (abs_eq (by positivity : (0:Int) ≤ (m:Int))).mp h with hS | hS
      · have hdvd : (m : Int) ∣ 1 := ⟨v + F.old_t, by rw [← hfbez, hS]; ring⟩
        have hle1 := Int.le_of_dvd one_pos hdvd
        have hge2 : (2 : Int) ≤ (m : Int) := by exact_mod_cast hm2
        omega
      · have hdvd : (m : Int) ∣ 1 := ⟨F.old_t - v, by rw [← hfbez, hS]; ring⟩
        have hle1 := Int.le_of_dvd one_pos hdvd
        have hge2 : (2 : Int) ≤ (m : Int) := by exact_mod_cast hm2
        omega
  have hSbound : -(m : Int) < F.old_s ∧ F.old_s < (m : Int) := abs_lt.mp hSlt
  set c : Int := if F.old_s < 0 then F.old_s + (m : Int) else F.old_s with hc
  have hc0 : 0 ≤ c := by rw [hc]; split <;> omega
  have hcm : c < (m : Int) := by rw [hc]; split <;> omega
  have hpost : galois_inv_post a F = { value := c.toNat, modulus := m } := by
    rw [galois_inv_post, if_neg (by rw [hold1]; omega)]
    have htoU : toU64 c = c.toNat := by
      rw [toU64, Int.emod_eq_of_lt hc0 (by
        have hmlt : (m : Int) < 18446744073709551616 := by
          exact_mod_cast lt_trans hsmall (by norm_num)
        omega)]
    rw [← hc, htoU]
  have hmulv : (symmetrix_galois_mul a (symmetrix_galois_inv a)).value =
      (v * c.toNat) % m := by
    rw [hinv, hpost, symmetrix_galois_mul]
    rw [if_neg (by simp)]
    show ((v * c.toNat) % m) % U64MOD = (v * c.toNat) % m
    have h1 : (v * c.toNat) % m < m := Nat.mod_lt _ (by omega)
    have h2 : m < U64MOD := by
      simp only [U64MOD]
      omega
    exact Nat.mod_eq_of_lt (by omega)
  rw [hmulv]
  have hzmod : ((v * c.toNat : Nat) : ZMod m) = ((1 : Nat) : ZMod m) := by
    push_cast
    have hcz : ((c.toNat : Int) : ZMod m) = ((F.old_s : Int) : ZMod m) := by
      rw [Int.toNat_of_nonneg hc0, hc]
      split
      · push_cast
        simp [ZMod.natCast_self]
      · rfl
    have hSv : ((F.old_s : ZMod m)) * (v : ZMod m) = 1 := by
      have hcg := congrArg (fun z : Int => ((z : ZMod m))) hfbez
      push_cast at hcg
      simpa using hcg
    have hcn : ((c.toNat : Nat) : ZMod m) = ((F.old_s : Int) : ZMod m) := by
      rw [← hcz]
      push_cast
      rfl
    calc ((v : ZMod m) * (c.toNat : ZMod m))
        = (v : ZMod m) * ((F.old_s : Int) : ZMod m) := by rw [← hcn]
      _ = 1 := by rw [mul_comm]; exact_mod_cast hSv
  have hmodeq : (v * c.toNat) % m = 1 % m :=
    (ZMod.natCast_eq_natCast_iff _ _ _).mp hzmod
  rw [hmodeq, Nat.mod_eq_of_lt hm2]

/-- Witness for C6_inv_mul_one at a = (3 mod 7): inv(3) = 5 and 3·5 = 1 mod 7. -/
theorem C6_witness :
    Nat.Prime 7 ∧ (7 : Nat) < 9223372036854775808 ∧ (0 : Nat) < 3 ∧ (3 : Nat) < 7 ∧
      (symmetrix_galois_mul ⟨3, 7⟩ (symmetrix_galois_inv ⟨3, 7⟩)).value = 1 :=
  ⟨by decide, by decide, by decide, by decide,
    C6_inv_mul_one ⟨3, 7⟩ (by decide) (by decide) (by decide) (by decide)⟩

end Symmetrix
